import Mathlib

/-!
Verification of the prompt_gitter metadata/content synchronization protocol
and collection view, as a shallow embedding of the client code
(`CreatePromptModal.handleSubmit`, `ViewEditPromptModal.handleSubmit`,
`ViewEditPromptModal.handleDelete`, `PromptsList.fetchPrompts`,
`PromptsList.filteredPrompts`).

Remote store interaction is modelled by environments giving one response per
request the code issues; a request either rejects at the network level
(`netErr`, the JS promise rejects and control jumps to the `catch` block) or
resolves with an HTTP status.  HTTP-error responses resolve normally; the code
only observes them where it inspects `response.ok`/`response.status` or parses
the body.  Each operation returns the ordered trace of requests it issued and
the error message set by its `catch` handler (`none` = success path reached).
-/

namespace PromptGitter

/-- The fixed provider enumeration from the source. -/
inductive Provider where
  | openai | anthropic | google | xai | meta | mistral
deriving DecidableEq, Repr

/-- A prompt record as stored in `metadata.json` (the `Prompt` /
`PromptMetadata` interface).  `content` is the optional body attached after
fetching the record's content file; records parsed from the Index carry
`none`. -/
structure PromptRecord where
  id : String
  title : String
  description : String
  tags : List String
  provider : Provider
  model : String
  filename : String
  content : Option String := none
  createdAt : String
  updatedAt : String
deriving DecidableEq, Repr

/-- Response to a GET of `metadata.json`: network rejection, 404, another
non-ok status (whose JSON body carries no `content`/`sha`, so parsing it
throws), or success carrying the parsed record list and the revision sha. -/
inductive IndexResp where
  | netErr
  | notFound
  | errStatus (status : Nat)
  | ok (prompts : List PromptRecord) (sha : String)
deriving DecidableEq, Repr

/-- Response to a GET of a content file: network rejection, a non-ok status
(body without `content`/`sha`), or success with decoded body and sha. -/
inductive FileResp where
  | netErr
  | errStatus (status : Nat)
  | ok (content : String) (sha : String)
deriving DecidableEq, Repr

/-- Response to a PUT or DELETE.  The code never reads these response bodies,
so only "rejected" versus "resolved with some status" matters; the status is
kept to name conflicts (409) concretely. -/
inductive WriteResp where
  | netErr
  | done (status : Nat)
deriving DecidableEq, Repr

/-- One remote-store request, as recorded in an operation's trace. -/
inductive Action where
  | getIndex
  | putIndex (prompts : List PromptRecord) (sha : Option String)
  | getFile (path : String)
  | putFile (path : String) (content : String) (sha : Option String)
  | deleteFile (path : String) (sha : Option String)
deriving DecidableEq, Repr

/-- Outcome of a mutating operation: the requests issued, in order, and the
message installed by the `catch` handler (`none` when the success
continuation ran). -/
structure OpOutcome where
  trace : List Action
  error : Option String
deriving DecidableEq, Repr

/-- Outcome of `fetchPrompts`. -/
inductive FetchResult where
  | failure (message : String)
  | success (prompts : List PromptRecord)
deriving DecidableEq, Repr

/-! ### Decimal rendering of timestamps

`Date.now()` values are only ever interpolated into strings
(template literals and `.toString()`), rendering as base-10 numerals. -/

/-- The decimal digit character for `n < 10`. -/
def digitChar (n : Nat) : Char := Char.ofNat (48 + n)

/-- Base-10 digit list of a natural number, most significant first. -/
def natDigits (n : Nat) : List Char :=
  if n < 10 then [digitChar n]
  else natDigits (n / 10) ++ [digitChar (n % 10)]
termination_by n
decreasing_by exact Nat.div_lt_self (by omega) (by omega)

/-- Decimal string of a natural number, as a JS number interpolates. -/
def natDecimal (n : Nat) : String := String.mk (natDigits n)

/-! ### Filename derivation (`title.toLowerCase().replace(/[^a-z0-9]+/g, '-').replace(/^-+|-+$/g, '')`) -/

/-- Characters the kebab-case regex keeps: the class `[a-z0-9]` (applied
after lower-casing). -/
def isKebabAlnum (c : Char) : Bool :=
  (('a' ≤ c && c ≤ 'z') || ('0' ≤ c && c ≤ '9'))

/-- `replace(/[^a-z0-9]+/g, '-')`: every maximal run of characters outside
`[a-z0-9]` becomes a single dash. -/
def collapseNonAlnum : List Char → List Char
  | [] => []
  | c :: cs =>
    if isKebabAlnum c then c :: collapseNonAlnum cs
    else
      match collapseNonAlnum cs with
      | [] => ['-']
      | d :: ds => if d = '-' then '-' :: ds else '-' :: d :: ds

/-- `replace(/^-+|-+$/g, '')`: strip leading and trailing dashes. -/
def trimDashes (l : List Char) : List Char :=
  ((l.dropWhile (fun c => c = '-')).reverse.dropWhile (fun c => c = '-')).reverse

/-- The derived base filename (`baseFilename` in both modals). -/
def kebabCase (title : String) : String :=
  String.mk (trimDashes (collapseNonAlnum (title.data.map Char.toLower)))

/-- `s.startsWith(pre)` (JS `String.prototype.startsWith`). -/
def jsStartsWith (pre s : String) : Bool :=
  pre.data.isPrefixOf s.data

/-- Create's collision scan:
`metadata.prompts.filter(p => p.filename.startsWith(baseFilename + "-"))`. -/
def createMatches (base : String) (prompts : List PromptRecord) : List PromptRecord :=
  prompts.filter (fun p => jsStartsWith (base ++ "-") p.filename)

/-- Update's collision scan, which additionally excludes the record being
edited (`p.id !== prompt.id`). -/
def updateMatches (base : String) (selfId : String) (prompts : List PromptRecord) :
    List PromptRecord :=
  prompts.filter (fun p => p.id != selfId && jsStartsWith (base ++ "-") p.filename)

/-- The disambiguating suffix: the match count when positive, else the empty
string (`existingPrompts.length > 0 ? existingPrompts.length : ''`). -/
def countSuffix (count : Nat) : String :=
  if count > 0 then natDecimal count else ""

/-- The assembled filename: `` `${baseFilename}-${Date.now()}${suffix}.md` ``. -/
def mkFilename (base : String) (now : Nat) (count : Nat) : String :=
  base ++ "-" ++ natDecimal now ++ countSuffix count ++ ".md"

/-- The filename Create derives for a title against the fetched Index. -/
def createFilename (title : String) (prompts : List PromptRecord) (now : Nat) : String :=
  let base := kebabCase title
  mkFilename base now (createMatches base prompts).length

/-- The filename Update derives on a title change. -/
def updateFilename (title : String) (selfId : String) (prompts : List PromptRecord)
    (now : Nat) : String :=
  let base := kebabCase title
  mkFilename base now (updateMatches base selfId prompts).length

/-! ### Tags parsing (`tags.split(',').map(tag => tag.trim())`) -/

/-- `String.prototype.split(',')` on the character list: the comma-separated
segments, in order.  On the empty list it yields one empty segment, matching
`''.split(',') === ['']`. -/
def splitCommaAux : List Char → List (List Char)
  | [] => [[]]
  | c :: rest =>
    match splitCommaAux rest with
    | [] => [[]]
    | g :: gs => if c = ',' then [] :: g :: gs else (c :: g) :: gs

/-- `s.split(',')` as a list of strings. -/
def splitComma (s : String) : List String :=
  (splitCommaAux s.data).map String.mk

/-- `String.prototype.trim`: strip whitespace from both ends. -/
def jsTrim (s : String) : String :=
  String.mk (((s.data.dropWhile Char.isWhitespace).reverse.dropWhile Char.isWhitespace).reverse)

/-- The tags stored by both Create and Update:
`tags.split(',').map(tag => tag.trim())`. -/
def parseTags (s : String) : List String :=
  (splitComma s).map jsTrim

/-! ### Fetch-all (`PromptsList.fetchPrompts`) -/

/-- Environment for `fetchPrompts`: the `metadata.json` response and, per
content-file path, that file's response. -/
structure FetchEnv where
  indexResp : IndexResp
  contentResp : String → FileResp

/-- The generic message set by `fetchPrompts`' catch handler. -/
def fetchErrMsg : String := "Failed to fetch prompts. Please try again later."

/-- `fetchPrompts`: reads the Index; `if (!metadataResponse.ok) throw`
(404 included), caught by the outer handler.  On success each record's
content file is read inside a per-record try/catch: a failing read returns
the record unchanged (metadata-only), a successful read attaches the body. -/
def fetchPrompts (env : FetchEnv) : FetchResult :=
  match env.indexResp with
  | .ok prompts _ =>
    .success (prompts.map (fun p =>
      match env.contentResp p.filename with
      | .ok c _ => { p with content := some c }
      | _ => p))
  | _ => .failure fetchErrMsg

/-! ### Create (`CreatePromptModal.handleSubmit`) -/

/-- Environment for Create: the Index GET, the Index PUT and the content-file
PUT responses. -/
structure CreateEnv where
  indexResp : IndexResp
  putIndexResp : WriteResp
  putFileResp : WriteResp

/-- The form fields submitted to Create. -/
structure CreateForm where
  title : String
  description : String
  tagsInput : String
  provider : Provider
  model : String
  promptBody : String
deriving DecidableEq, Repr

/-- The generic message set by Create's catch handler. -/
def createErrMsg : String := "Failed to create prompt. Please try again."

/-- The record Create builds (`newPrompt`): fresh time-based `id`, both
timestamps set to now, derived filename. -/
def newPromptRecord (form : CreateForm) (prompts : List PromptRecord)
    (now : Nat) (nowIso : String) : PromptRecord :=
  { id := natDecimal now
    title := form.title
    description := form.description
    tags := parseTags form.tagsInput
    provider := form.provider
    model := form.model
    filename := createFilename form.title prompts now
    content := none
    createdAt := nowIso
    updatedAt := nowIso }

/-- Create after a successfully handled Index read (`prompts`/`sha` as the
code leaves them: empty/`''` on 404).  Appends the new record, PUTs the
Index (sha included only when non-empty, `...(sha ? { sha } : {})`), then
PUTs the content file; neither write's response is inspected, only a network
rejection aborts. -/
def createContinue (env : CreateEnv) (form : CreateForm) (now : Nat) (nowIso : String)
    (prompts : List PromptRecord) (sha : String) : OpOutcome :=
  let newPrompt := newPromptRecord form prompts now nowIso
  let newIndex := prompts ++ [newPrompt]
  let t1 := [Action.getIndex,
             Action.putIndex newIndex (if sha = "" then none else some sha)]
  match env.putIndexResp with
  | .netErr => ⟨t1, some createErrMsg⟩
  | .done _ =>
    let t2 := t1 ++ [Action.putFile ("prompts/" ++ newPrompt.filename) form.promptBody none]
    match env.putFileResp with
    | .netErr => ⟨t2, some createErrMsg⟩
    | .done _ => ⟨t2, none⟩

/-- `CreatePromptModal.handleSubmit`.  The Index GET handles 404 explicitly
(`if (metadataResponse.status !== 404)`): absent Index starts empty with no
sha.  Any other non-ok response is parsed anyway and throws (no `content`
field), landing in the catch handler; a network rejection does the same. -/
def createPrompt (env : CreateEnv) (form : CreateForm) (now : Nat) (nowIso : String) :
    OpOutcome :=
  match env.indexResp with
  | .netErr => ⟨[Action.getIndex], some createErrMsg⟩
  | .errStatus _ => ⟨[Action.getIndex], some createErrMsg⟩
  | .notFound => createContinue env form now nowIso [] ""
  | .ok prompts sha => createContinue env form now nowIso prompts sha

/-! ### Update (`ViewEditPromptModal.handleSubmit`) -/

/-- Environment for Update: Index GET, old-file GET and DELETE (rename path),
Index PUT, same-file GET (for the sha when the filename is unchanged) and
content PUT responses. -/
structure UpdateEnv where
  indexResp : IndexResp
  oldFileResp : FileResp
  deleteOldResp : WriteResp
  putIndexResp : WriteResp
  sameFileResp : FileResp
  putFileResp : WriteResp

/-- The form fields submitted to Update. -/
structure UpdateForm where
  title : String
  description : String
  tagsInput : String
  provider : Provider
  model : String
  content : String
deriving DecidableEq, Repr

/-- The generic message set by Update's catch handler. -/
def updateErrMsg : String := "Failed to update prompt. Please try again."

/-- A default record, used only to type `List.getD` at indices known to be
in bounds. -/
def defaultRecord : PromptRecord :=
  { id := "", title := "", description := "", tags := [], provider := .openai,
    model := "", filename := "", content := none, createdAt := "", updatedAt := "" }

/-- The in-place record replacement
(`metadata.prompts[promptIndex] = { ...metadata.prompts[promptIndex], ... }`):
spread keeps every field (notably `id` and `createdAt`), then the mutable
fields and `updatedAt` are overwritten. -/
def updatedIndex (prompts : List PromptRecord) (i : Nat) (form : UpdateForm)
    (filename : String) (nowIso : String) : List PromptRecord :=
  let old := prompts.getD i defaultRecord
  prompts.set i
    { old with
      title := form.title
      description := form.description
      tags := parseTags form.tagsInput
      provider := form.provider
      model := form.model
      filename := filename
      updatedAt := nowIso }

/-- The sha a GET's JSON body yields for a write that follows it: present on
success, absent (key serialized away) when the body carries no `sha`. -/
def shaOf : FileResp → Option String
  | .ok _ s => some s
  | _ => none

/-- Update from the Index PUT on: writes the updated Index (response not
inspected), then the content file — at the old path with its freshly fetched
revision sha when the filename is unchanged
(`...(filename === prompt.filename && { sha: ... })`), else at the new path
with no sha. -/
def updateFinish (env : UpdateEnv) (oldFilename : String) (form : UpdateForm)
    (newIndex : List PromptRecord) (sha : String) (filename : String)
    (t : List Action) : OpOutcome :=
  let t1 := t ++ [Action.putIndex newIndex (some sha)]
  match env.putIndexResp with
  | .netErr => ⟨t1, some updateErrMsg⟩
  | .done _ =>
    if filename == oldFilename then
      let t2 := t1 ++ [Action.getFile ("prompts/" ++ filename)]
      match env.sameFileResp with
      | .netErr => ⟨t2, some updateErrMsg⟩
      | r =>
        let t3 := t2 ++ [Action.putFile ("prompts/" ++ filename) form.content (shaOf r)]
        match env.putFileResp with
        | .netErr => ⟨t3, some updateErrMsg⟩
        | .done _ => ⟨t3, none⟩
    else
      let t2 := t1 ++ [Action.putFile ("prompts/" ++ filename) form.content none]
      match env.putFileResp with
      | .netErr => ⟨t2, some updateErrMsg⟩
      | .done _ => ⟨t2, none⟩

/-- `ViewEditPromptModal.handleSubmit` for the record `prompt` the modal was
opened on.  The Index GET is parsed unconditionally (any non-ok response
throws).  A missing `id` (`promptIndex === -1`) skips every write and still
runs the success continuation.  On a title change the new filename is
derived (excluding the edited record from the scan) and the old content file
is read and deleted before the Index write. -/
def updatePrompt (env : UpdateEnv) (prompt : PromptRecord) (form : UpdateForm)
    (now : Nat) (nowIso : String) : OpOutcome :=
  match env.indexResp with
  | .netErr => ⟨[Action.getIndex], some updateErrMsg⟩
  | .notFound => ⟨[Action.getIndex], some updateErrMsg⟩
  | .errStatus _ => ⟨[Action.getIndex], some updateErrMsg⟩
  | .ok prompts sha =>
    match prompts.findIdx? (fun p => p.id == prompt.id) with
    | none => ⟨[Action.getIndex], none⟩
    | some i =>
      if form.title == prompt.title then
        updateFinish env prompt.filename form
          (updatedIndex prompts i form prompt.filename nowIso) sha prompt.filename
          [Action.getIndex]
      else
        let filename := updateFilename form.title prompt.id prompts now
        let t1 := [Action.getIndex, Action.getFile ("prompts/" ++ prompt.filename)]
        match env.oldFileResp with
        | .netErr => ⟨t1, some updateErrMsg⟩
        | r =>
          let t2 := t1 ++ [Action.deleteFile ("prompts/" ++ prompt.filename) (shaOf r)]
          match env.deleteOldResp with
          | .netErr => ⟨t2, some updateErrMsg⟩
          | .done _ =>
            updateFinish env prompt.filename form
              (updatedIndex prompts i form filename nowIso) sha filename t2

/-! ### Delete (`ViewEditPromptModal.handleDelete`) -/

/-- Environment for Delete: Index GET, Index PUT, content-file GET (for the
sha) and content-file DELETE responses. -/
structure DeleteEnv where
  indexResp : IndexResp
  putIndexResp : WriteResp
  fileResp : FileResp
  deleteResp : WriteResp

/-- The generic message set by Delete's catch handler. -/
def deleteErrMsg : String := "Failed to delete prompt. Please try again."

/-- `ViewEditPromptModal.handleDelete`: re-fetch the Index, drop every record
with the matching `id` (`filter(p => p.id !== prompt.id)`), PUT the Index,
then GET the content file for its sha and DELETE it.  No write response is
inspected; only network rejections abort. -/
def deletePrompt (env : DeleteEnv) (prompt : PromptRecord) : OpOutcome :=
  match env.indexResp with
  | .netErr => ⟨[Action.getIndex], some deleteErrMsg⟩
  | .notFound => ⟨[Action.getIndex], some deleteErrMsg⟩
  | .errStatus _ => ⟨[Action.getIndex], some deleteErrMsg⟩
  | .ok prompts sha =>
    let newIndex := prompts.filter (fun p => p.id != prompt.id)
    let t1 := [Action.getIndex, Action.putIndex newIndex (some sha)]
    match env.putIndexResp with
    | .netErr => ⟨t1, some deleteErrMsg⟩
    | .done _ =>
      let t2 := t1 ++ [Action.getFile ("prompts/" ++ prompt.filename)]
      match env.fileResp with
      | .netErr => ⟨t2, some deleteErrMsg⟩
      | r =>
        let t3 := t2 ++ [Action.deleteFile ("prompts/" ++ prompt.filename) (shaOf r)]
        match env.deleteResp with
        | .netErr => ⟨t3, some deleteErrMsg⟩
        | .done _ => ⟨t3, none⟩

/-! ### Collection view (`PromptsList.filteredPrompts`) -/

/-- `needle` occurs as a contiguous substring of `hay`
(`String.prototype.includes`). -/
def hasInfixChars (hay needle : List Char) : Bool :=
  match hay with
  | [] => needle.isEmpty
  | _ :: t => needle.isPrefixOf hay || hasInfixChars t needle

/-- `hay.includes(needle)` on strings. -/
def strIncludes (hay needle : String) : Bool :=
  hasInfixChars hay.data needle.data

/-- `s.toLowerCase()` (ASCII model). -/
def jsToLower (s : String) : String := String.mk (s.data.map Char.toLower)

/-- The text filter: empty query passes, else case-insensitive substring
match against title, description, or any tag. -/
def matchesSearch (q : String) (p : PromptRecord) : Bool :=
  q == "" ||
    strIncludes (jsToLower p.title) (jsToLower q) ||
    strIncludes (jsToLower p.description) (jsToLower q) ||
    p.tags.any (fun tag => strIncludes (jsToLower tag) (jsToLower q))

/-- The tag filter: no tag selected passes, else some selected tag is among
the record's tags. -/
def matchesTags (selectedTags : List String) (p : PromptRecord) : Bool :=
  selectedTags.isEmpty || selectedTags.any (fun tag => p.tags.contains tag)

/-- The provider filter: no provider selected passes, else the record's
provider is selected. -/
def matchesProviders (selectedProviders : List Provider) (p : PromptRecord) : Bool :=
  selectedProviders.isEmpty || selectedProviders.contains p.provider

/-- The three chained `.filter` calls of `filteredPrompts`. -/
def filterPrompts (prompts : List PromptRecord) (q : String)
    (selectedTags : List String) (selectedProviders : List Provider) :
    List PromptRecord :=
  ((prompts.filter (matchesSearch q)).filter (matchesTags selectedTags)).filter
    (matchesProviders selectedProviders)

/-- The sort field toggle (`'title' | 'updatedAt'`). -/
inductive SortField where
  | title | updatedAt
deriving DecidableEq, Repr

/-- The sort order toggle (`'asc' | 'desc'`). -/
inductive SortOrder where
  | asc | desc
deriving DecidableEq, Repr

/-- The comparator body: `a.title.localeCompare(b.title)` for the title
field — `lc` is the platform's locale-aware collator — and
`new Date(a.updatedAt).getTime() - new Date(b.updatedAt).getTime()` for the
date field — `getTime` is the platform's ISO-timestamp parse to epoch
milliseconds. -/
def promptComparison (lc : String → String → Int) (getTime : String → Int)
    (field : SortField) (a b : PromptRecord) : Int :=
  match field with
  | .title => lc a.title b.title
  | .updatedAt => getTime a.updatedAt - getTime b.updatedAt

/-- The full comparator: `sortOrder === 'asc' ? comparison : -comparison`. -/
def promptCmp (lc : String → String → Int) (getTime : String → Int)
    (field : SortField) (ord : SortOrder) (a b : PromptRecord) : Int :=
  match ord with
  | .asc => promptComparison lc getTime field a b
  | .desc => -(promptComparison lc getTime field a b)

/-- `Array.prototype.sort(comparator)` as specified by ES2019: a stable sort
placing `a` no later than `b` whenever `comparator(a, b) ≤ 0`. -/
def sortPrompts (lc : String → String → Int) (getTime : String → Int)
    (field : SortField) (ord : SortOrder) (l : List PromptRecord) :
    List PromptRecord :=
  l.mergeSort (fun a b => promptCmp lc getTime field ord a b ≤ 0)

/-- `filteredPrompts`: the three filters then the sort. -/
def filteredPrompts (lc : String → String → Int) (getTime : String → Int)
    (prompts : List PromptRecord) (q : String) (selectedTags : List String)
    (selectedProviders : List Provider) (field : SortField) (ord : SortOrder) :
    List PromptRecord :=
  sortPrompts lc getTime field ord (filterPrompts prompts q selectedTags selectedProviders)

/-! ### Helper lemmas -/

/-- Joining segments back with commas (the inverse of `splitCommaAux`). -/
def joinCommaAux : List (List Char) → List Char
  | [] => []
  | [g] => g
  | g :: g2 :: gs => g ++ ',' :: joinCommaAux (g2 :: gs)

theorem splitCommaAux_ne_nil (l : List Char) : splitCommaAux l ≠ [] := by
  cases l with
  | nil => simp [splitCommaAux]
  | cons c rest =>
    simp only [splitCommaAux]
    cases splitCommaAux rest with
    | nil => simp
    | cons g gs =>
      by_cases hc : c = ',' <;> simp [hc]

theorem joinCommaAux_splitCommaAux (l : List Char) :
    joinCommaAux (splitCommaAux l) = l := by
  induction l with
  | nil => rfl
  | cons c rest ih =>
    simp only [splitCommaAux]
    cases hs : splitCommaAux rest with
    | nil => exact absurd hs (splitCommaAux_ne_nil rest)
    | cons g gs =>
      rw [hs] at ih
      show joinCommaAux (if c = ',' then [] :: g :: gs else (c :: g) :: gs) = c :: rest
      by_cases hc : c = ','
      · subst hc
        simpa [joinCommaAux] using ih
      · rw [if_neg hc]
        cases gs with
        | nil => simpa [joinCommaAux] using ih
        | cons g2 gs' => simpa [joinCommaAux] using ih

theorem not_mem_splitCommaAux (l : List Char) :
    ∀ g ∈ splitCommaAux l, ',' ∉ g := by
  induction l with
  | nil => simp [splitCommaAux]
  | cons c rest ih =>
    simp only [splitCommaAux]
    cases hs : splitCommaAux rest with
    | nil => exact absurd hs (splitCommaAux_ne_nil rest)
    | cons g gs =>
      rw [hs] at ih
      show ∀ g' ∈ (if c = ',' then [] :: g :: gs else (c :: g) :: gs), ',' ∉ g'
      by_cases hc : c = ','
      · rw [if_pos hc]
        intro g' hg'
        rcases List.mem_cons.mp hg' with h | h
        · subst h
          simp
        · exact ih g' h
      · rw [if_neg hc]
        intro g' hg'
        rcases List.mem_cons.mp hg' with h | h
        · subst h
          intro hmem
          rcases List.mem_cons.mp hmem with h' | h'
          · exact hc h'.symm
          · exact ih g (by simp) h'
        · exact ih g' (by simp [h])

/-! ### Example records -/

/-- Example record A of the spec's filtering example (tag set consisting of the
single tag "x"). -/
def recA : PromptRecord :=
  { id := "1", title := "A", description := "da", tags := ["x"],
    provider := .openai, model := "gpt-4", filename := "a-1.md",
    content := none, createdAt := "2024-01-01", updatedAt := "2024-01-02" }

/-- Example record B of the spec's filtering example (tag set consisting of the
single tag "y"). -/
def recB : PromptRecord :=
  { id := "2", title := "B", description := "db", tags := ["y"],
    provider := .anthropic, model := "claude-3-opus", filename := "b-2.md",
    content := none, createdAt := "2024-01-01", updatedAt := "2024-01-03" }

/-! ### C10 -/

/-- C10: the tags stored by Create are exactly the comma-separated segments
of the raw input, each with surrounding whitespace trimmed: the segments
rejoin to the input and contain no comma.  The empty input yields the
one-element list containing the empty string — never the empty list — so
every created record has at least one (possibly empty) tag. -/
theorem c10_tags_are_trimmed_comma_segments :
    (∀ form prompts now nowIso,
        (newPromptRecord form prompts now nowIso).tags = parseTags form.tagsInput)
    ∧ (∀ s : String, parseTags s = (splitComma s).map jsTrim)
    ∧ (∀ s : String, joinCommaAux ((splitComma s).map String.data) = s.data)
    ∧ (∀ s : String, ∀ g ∈ splitComma s, ',' ∉ g.data)
    ∧ parseTags "" = [""]
    ∧ (∀ s : String, 1 ≤ (parseTags s).length) := by
  refine ⟨fun _ _ _ _ => rfl, fun _ => rfl, ?_, ?_, by decide, ?_⟩
  · intro s
    have h : (splitComma s).map String.data = splitCommaAux s.data := by
      simp only [splitComma, List.map_map]
      exact List.map_id'' (fun _ => rfl) _
    rw [h, joinCommaAux_splitCommaAux]
  · intro s g hg
    simp only [splitComma, List.mem_map] at hg
    obtain ⟨seg, hseg, rfl⟩ := hg
    exact not_mem_splitCommaAux s.data seg hseg
  · intro s
    have h := splitCommaAux_ne_nil s.data
    simp [parseTags, splitComma, Nat.one_le_iff_ne_zero, h]

/-- Concrete instance of `c10_tags_are_trimmed_comma_segments`. -/
theorem c10_witness :
    parseTags " a, b " = ["a", "b"] ∧ 1 ≤ (parseTags "").length :=
  ⟨by decide, c10_tags_are_trimmed_comma_segments.2.2.2.2.2 ""⟩

/-! ### C8 -/

/-- C8: the collection view shows exactly the records passing the three
filters ANDed — the case-insensitive text filter over title, description and
tags (empty text passes all), the tag filter (intersection with the selected
tags, empty selection passes all) and the provider filter (membership in the
selected providers, empty selection passes all); e.g. over records A (tag x)
and B (tag y), selecting tag x yields exactly A and selecting no tag yields
both. -/
theorem c8_filters_anded :
    (∀ lc getTime prompts q selTags selProv field ord (p : PromptRecord),
        p ∈ filteredPrompts lc getTime prompts q selTags selProv field ord ↔
          p ∈ prompts ∧ matchesSearch q p = true ∧ matchesTags selTags p = true ∧
            matchesProviders selProv p = true)
    ∧ filterPrompts [recA, recB] "" ["x"] [] = [recA]
    ∧ filterPrompts [recA, recB] "" [] [] = [recA, recB] := by
  refine ⟨?_, by decide, by decide⟩
  intro lc getTime prompts q selTags selProv field ord p
  simp only [filteredPrompts, sortPrompts, filterPrompts, List.mem_mergeSort,
    List.mem_filter]
  tauto

/-! ### C6 -/

/-- C6: when the Index read succeeds, fetch-all succeeds and returns one
output record per Index record, in order; a record whose content read
succeeds gets the body attached, and a record whose content read fails (any
response other than `ok`) is returned exactly as its Index metadata, the
failure affecting no other record and never the fetch as a whole. -/
theorem c6_content_failure_degrades_record (env : FetchEnv)
    (prompts : List PromptRecord) (sha : String)
    (h : env.indexResp = .ok prompts sha) :
    ∃ out, fetchPrompts env = .success out ∧ out.length = prompts.length ∧
      ∀ i, (hi : i < prompts.length) →
        (∀ c s, env.contentResp (prompts.getD i defaultRecord).filename = .ok c s →
            out.getD i defaultRecord =
              { prompts.getD i defaultRecord with content := some c }) ∧
        ((∀ c s, env.contentResp (prompts.getD i defaultRecord).filename ≠ .ok c s) →
            out.getD i defaultRecord = prompts.getD i defaultRecord) := by
  refine ⟨prompts.map (fun p =>
      match env.contentResp p.filename with
      | .ok c _ => { p with content := some c }
      | _ => p), ?_, by simp, ?_⟩
  · simp only [fetchPrompts, h]
  · intro i hi
    have hbase : prompts.getD i defaultRecord = prompts[i] :=
      List.getD_eq_getElem _ _ hi
    have hmap : ∀ f : PromptRecord → PromptRecord,
        (prompts.map f).getD i defaultRecord = f prompts[i] := fun f => by
      rw [List.getD_eq_getElem _ _ (by simpa using hi), List.getElem_map]
    constructor
    · intro c s hcs
      rw [hbase] at hcs ⊢
      rw [hmap, hcs]
    · intro hne
      rw [hbase] at hne ⊢
      rw [hmap]
      cases hr : env.contentResp prompts[i].filename with
      | netErr => rfl
      | errStatus st => rfl
      | ok c s => exact absurd hr (hne c s)

/-- Concrete instance of `c6_content_failure_degrades_record`: every content
read fails at the network level, yet the fetch still succeeds with both
records. -/
theorem c6_witness :
    ∃ out, fetchPrompts ⟨IndexResp.ok [recA, recB] "s0", fun _ => FileResp.netErr⟩ =
      FetchResult.success out ∧ out.length = 2 ∧
      out.getD 0 defaultRecord = recA ∧ out.getD 1 defaultRecord = recB := by
  obtain ⟨out, hout, hlen, hrec⟩ :=
    c6_content_failure_degrades_record
      ⟨IndexResp.ok [recA, recB] "s0", fun _ => FileResp.netErr⟩ [recA, recB] "s0" rfl
  refine ⟨out, hout, by simpa using hlen, ?_, ?_⟩
  · simpa using (hrec 0 (by decide)).2 (fun c s hcs => by simp at hcs)
  · simpa using (hrec 1 (by decide)).2 (fun c s hcs => by simp at hcs)

/-! ### C2 -/

/-- C2 (code bug evidence): when the Index document is absent (the
`metadata.json` GET returns 404), `fetchPrompts` does not return an empty
collection — `if (!metadataResponse.ok) throw` treats 404 like any failure,
so the user-facing generic fetch error is surfaced instead. -/
theorem c2_absent_index_yields_error_not_empty :
    fetchPrompts ⟨IndexResp.notFound, fun _ => FileResp.netErr⟩ =
      FetchResult.failure fetchErrMsg ∧
    ∀ out, fetchPrompts ⟨IndexResp.notFound, fun _ => FileResp.netErr⟩ ≠
      FetchResult.success out := by
  exact ⟨rfl, fun out h => by simp [fetchPrompts] at h⟩

/-! ### C5 -/

/-- C5: Delete drops exactly the records with the matching id from the
fetched Index, writes the Index, and only then reads and deletes the content
file — the full request trace, in order, with no error surfaced; removal is
by id (membership characterization), and an id absent from the fetched Index
leaves the written record sequence identical, still reported as success. -/
theorem c5_delete_removes_by_id (env : DeleteEnv) (prompt : PromptRecord)
    (prompts : List PromptRecord) (sha : String) (s1 s2 : Nat)
    (h : env.indexResp = .ok prompts sha)
    (h1 : env.putIndexResp = .done s1)
    (h2 : env.fileResp ≠ .netErr)
    (h3 : env.deleteResp = .done s2) :
    deletePrompt env prompt =
      ⟨[Action.getIndex,
        Action.putIndex (prompts.filter (fun p => p.id != prompt.id)) (some sha),
        Action.getFile ("prompts/" ++ prompt.filename),
        Action.deleteFile ("prompts/" ++ prompt.filename) (shaOf env.fileResp)],
       none⟩ ∧
    (∀ p : PromptRecord,
        p ∈ prompts.filter (fun p => p.id != prompt.id) ↔
          p ∈ prompts ∧ p.id ≠ prompt.id) ∧
    ((∀ p ∈ prompts, p.id ≠ prompt.id) →
        prompts.filter (fun p => p.id != prompt.id) = prompts) := by
  refine ⟨?_, ?_, ?_⟩
  · simp only [deletePrompt, h, h1, h3]
    cases hr : env.fileResp with
    | netErr => exact absurd hr h2
    | errStatus st => simp [shaOf]
    | ok c s => simp [shaOf]
  · intro p
    simp [List.mem_filter]
  · intro hall
    rw [List.filter_eq_self]
    intro a ha
    simpa using hall a ha

/-- Concrete instance of `c5_delete_removes_by_id`, including the
absent-id no-op case. -/
theorem c5_witness :
    deletePrompt ⟨IndexResp.ok [recB] "s0", WriteResp.done 200,
        FileResp.ok "body" "fs", WriteResp.done 200⟩ recA =
      ⟨[Action.getIndex, Action.putIndex [recB] (some "s0"),
        Action.getFile "prompts/a-1.md",
        Action.deleteFile "prompts/a-1.md" (some "fs")], none⟩ := by
  have h := c5_delete_removes_by_id
    ⟨IndexResp.ok [recB] "s0", WriteResp.done 200,
     FileResp.ok "body" "fs", WriteResp.done 200⟩ recA [recB] "s0" 200 200
    rfl rfl (by decide) rfl
  exact h.1.trans (by decide)

/-! ### C4 -/

/-- C4: Update replaces the located record in the Index's record sequence at
the same position: the sequence keeps its length, every other position is
untouched, and at the located position exactly the mutable fields (title,
description, tags, provider, model, filename) take the submitted values with
`updatedAt` set to the current time, while `id` and `createdAt` (and the
spread-preserved `content` field) keep their previous values; and the Index
`updatePrompt` writes is exactly this replacement. -/
theorem c4_update_replaces_in_place :
    (∀ (prompts : List PromptRecord) (i : Nat) (form : UpdateForm)
        (filename nowIso : String), i < prompts.length →
      (updatedIndex prompts i form filename nowIso).length = prompts.length
      ∧ (∀ j, j ≠ i →
          (updatedIndex prompts i form filename nowIso).getD j defaultRecord
            = prompts.getD j defaultRecord)
      ∧ ((updatedIndex prompts i form filename nowIso).getD i defaultRecord).id
            = (prompts.getD i defaultRecord).id
      ∧ ((updatedIndex prompts i form filename nowIso).getD i defaultRecord).createdAt
            = (prompts.getD i defaultRecord).createdAt
      ∧ (updatedIndex prompts i form filename nowIso).getD i defaultRecord
          = { prompts.getD i defaultRecord with
                title := form.title, description := form.description,
                tags := parseTags form.tagsInput, provider := form.provider,
                model := form.model, filename := filename, updatedAt := nowIso })
    ∧ (∀ (env : UpdateEnv) (prompt : PromptRecord) (form : UpdateForm)
        (now : Nat) (nowIso : String) (prompts : List PromptRecord)
        (sha : String) (i : Nat),
        env.indexResp = .ok prompts sha →
        prompts.findIdx? (fun p => p.id == prompt.id) = some i →
        env.oldFileResp ≠ .netErr →
        env.deleteOldResp ≠ .netErr →
        Action.putIndex
          (updatedIndex prompts i form
            (if form.title == prompt.title then prompt.filename
             else updateFilename form.title prompt.id prompts now) nowIso)
          (some sha) ∈ (updatePrompt env prompt form now nowIso).trace) := by
  constructor
  · intro prompts i form filename nowIso hi
    have hset : (updatedIndex prompts i form filename nowIso).getD i defaultRecord
        = { prompts.getD i defaultRecord with
              title := form.title, description := form.description,
              tags := parseTags form.tagsInput, provider := form.provider,
              model := form.model, filename := filename, updatedAt := nowIso } := by
      simp only [updatedIndex]
      rw [List.getD_eq_getElem _ _ (by simpa using hi), List.getElem_set_self,
        List.getD_eq_getElem _ _ hi]
    refine ⟨by simp [updatedIndex], ?_, by rw [hset], by rw [hset], hset⟩
    intro j hj
    simp only [updatedIndex, List.getD_eq_getElem?_getD]
    rw [List.getElem?_set_ne (fun h => hj h.symm)]
  · intro env prompt form now nowIso prompts sha i h hfind h3 h4
    simp only [updatePrompt, h, hfind]
    cases ht : (form.title == prompt.title) with
    | true =>
      simp only [if_pos rfl]
      cases hpi : env.putIndexResp <;>
        cases hsf : env.sameFileResp <;>
          cases hpf : env.putFileResp <;>
            simp [updateFinish, hpi, hsf, hpf, List.mem_append]
    | false =>
      simp only [if_neg (show ¬(false = true) by simp)]
      cases hof : env.oldFileResp with
      | netErr => exact absurd hof h3
      | _ =>
        cases hdo : env.deleteOldResp with
        | netErr => exact absurd hdo h4
        | done st =>
          cases hpi : env.putIndexResp <;>
            cases hsf : env.sameFileResp <;>
              cases hpf : env.putFileResp <;>
                simp [updateFinish, hpi, hsf, hpf, List.mem_append] <;>
                  split <;> simp

/-- An Update form whose title equals `recA`'s stored title. -/
def form1 : UpdateForm :=
  { title := "A", description := "d2", tagsInput := "x,z",
    provider := .openai, model := "gpt-4", content := "body2" }

/-- An Update environment over an Index holding `recA`, every request
succeeding. -/
def updEnv0 : UpdateEnv :=
  { indexResp := .ok [recA] "s0", oldFileResp := .ok "c" "os",
    deleteOldResp := .done 200, putIndexResp := .done 200,
    sameFileResp := .ok "c" "fs", putFileResp := .done 200 }

/-- Concrete instance of `c4_update_replaces_in_place`. -/
theorem c4_witness :
    ((updatedIndex [recA] 0 form1 "a-1.md" "T").getD 0 defaultRecord).id = recA.id
    ∧ Action.putIndex (updatedIndex [recA] 0 form1
        (if form1.title == recA.title then recA.filename
         else updateFilename form1.title recA.id [recA] 7) "T")
        (some "s0") ∈ (updatePrompt updEnv0 recA form1 7 "T").trace := by
  constructor
  · have h := (c4_update_replaces_in_place.1 [recA] 0 form1 "a-1.md" "T"
      (by decide)).2.2.1
    simpa using h
  · exact c4_update_replaces_in_place.2 updEnv0 recA form1 7 "T" [recA] "s0" 0
      rfl (by decide) (by decide) (by decide)

/-! ### C7 -/

/-- C7: an Update whose submitted title equals the stored title never issues
a content-file DELETE (whatever the environment does), and on the success
path writes the body to the existing content-file path using the revision
sha just fetched from that same path, the record's filename in the written
Index staying the old one — update in place, not delete-and-recreate. -/
theorem c7_unchanged_title_updates_in_place :
    (∀ (env : UpdateEnv) (prompt : PromptRecord) (form : UpdateForm)
        (now : Nat) (nowIso : String), form.title == prompt.title →
        ∀ path sh, Action.deleteFile path sh ∉
          (updatePrompt env prompt form now nowIso).trace)
    ∧ (∀ (env : UpdateEnv) (prompt : PromptRecord) (form : UpdateForm)
        (now : Nat) (nowIso : String) (prompts : List PromptRecord)
        (sha c fsha : String) (i : Nat) (s1 s2 : Nat),
        env.indexResp = .ok prompts sha →
        prompts.findIdx? (fun p => p.id == prompt.id) = some i →
        form.title == prompt.title →
        env.putIndexResp = .done s1 →
        env.sameFileResp = .ok c fsha →
        env.putFileResp = .done s2 →
        updatePrompt env prompt form now nowIso =
          ⟨[Action.getIndex,
            Action.putIndex (updatedIndex prompts i form prompt.filename nowIso)
              (some sha),
            Action.getFile ("prompts/" ++ prompt.filename),
            Action.putFile ("prompts/" ++ prompt.filename) form.content (some fsha)],
           none⟩) := by
  constructor
  · intro env prompt form now nowIso ht path sh
    cases h : env.indexResp with
    | netErr => simp [updatePrompt, h]
    | notFound => simp [updatePrompt, h]
    | errStatus st => simp [updatePrompt, h]
    | ok prompts sha =>
      simp only [updatePrompt, h]
      cases hfind : prompts.findIdx? (fun p => p.id == prompt.id) with
      | none => simp
      | some i =>
        simp only [ht, if_pos rfl]
        cases hpi : env.putIndexResp <;>
          cases hsf : env.sameFileResp <;>
            cases hpf : env.putFileResp <;>
              simp [updateFinish, hpi, hsf, hpf, List.mem_append]
  · intro env prompt form now nowIso prompts sha c fsha i s1 s2
      h hfind ht h1 h2 h3
    simp only [updatePrompt, h, hfind, ht, if_pos rfl]
    simp [updateFinish, h1, h2, h3, shaOf]

/-- Concrete instance of `c7_unchanged_title_updates_in_place`. -/
theorem c7_witness :
    updatePrompt updEnv0 recA form1 7 "T" =
      ⟨[Action.getIndex,
        Action.putIndex (updatedIndex [recA] 0 form1 recA.filename "T") (some "s0"),
        Action.getFile ("prompts/" ++ recA.filename),
        Action.putFile ("prompts/" ++ recA.filename) form1.content (some "fs")],
       none⟩ :=
  c7_unchanged_title_updates_in_place.2 updEnv0 recA form1 7 "T" [recA]
    "s0" "c" "fs" 0 200 200 rfl (by decide) (by decide) rfl rfl rfl

/-! ### C1 -/

/-- A Create form used in concrete scenarios. -/
def form0 : CreateForm :=
  { title := "My Prompt!!", description := "d", tagsInput := "t",
    provider := .openai, model := "gpt-4", promptBody := "BODY" }

/-- C1 counterexample: the Index PUT resolves with HTTP 409 (a conflicted
write), yet Create still issues the content-file PUT afterwards and reports
success — no step is skipped and no failure message is surfaced, because the
write's response status is never inspected. -/
theorem c1_counterexample_conflicted_index_write :
    (createPrompt ⟨.ok [] "sha0", .done 409, .done 201⟩ form0 0 "Z").trace =
      [Action.getIndex,
       Action.putIndex [newPromptRecord form0 [] 0 "Z"] (some "sha0"),
       Action.putFile ("prompts/" ++ (newPromptRecord form0 [] 0 "Z").filename)
         form0.promptBody none]
    ∧ (createPrompt ⟨.ok [] "sha0", .done 409, .done 201⟩ form0 0 "Z").error = none
    ∧ (newPromptRecord form0 [] 0 "Z").filename = "my-prompt-0.md" := by
  refine ⟨rfl, rfl, ?_⟩
  simp [newPromptRecord, createFilename, mkFilename, createMatches, countSuffix,
    natDecimal, natDigits, digitChar]
  decide

/-- C1 amended: only failures that throw abort an operation.  A network-level
rejection at any request stops the remaining requests and surfaces the
operation's generic failure message (shown here for the Index GET, the Index
PUT and the content PUT of each operation), but the responses of the
mutating writes are never inspected: after the Index PUT resolves — with any
HTTP status, a 409 conflict included — Create still writes the content file
and Update/Delete still issue their content-file requests, and the operation
reports success if nothing later throws. -/
theorem c1_only_thrown_failures_abort :
    (∀ (env : CreateEnv) form now nowIso, env.indexResp = .netErr →
        createPrompt env form now nowIso = ⟨[Action.getIndex], some createErrMsg⟩)
    ∧ (∀ (env : CreateEnv) form now nowIso, env.putIndexResp = .netErr →
        (createPrompt env form now nowIso).error = some createErrMsg ∧
        ∀ p c s, Action.putFile p c s ∉ (createPrompt env form now nowIso).trace)
    ∧ (∀ (env : CreateEnv) form now nowIso prompts sha,
        env.indexResp = .ok prompts sha → env.putFileResp = .netErr →
        (createPrompt env form now nowIso).error = some createErrMsg)
    ∧ (∀ (env : CreateEnv) form now nowIso prompts sha st,
        env.indexResp = .ok prompts sha → env.putIndexResp = .done st →
        Action.putFile ("prompts/" ++ (newPromptRecord form prompts now nowIso).filename)
          form.promptBody none ∈ (createPrompt env form now nowIso).trace)
    ∧ (∀ (env : CreateEnv) form now nowIso prompts sha st st2,
        env.indexResp = .ok prompts sha → env.putIndexResp = .done st →
        env.putFileResp = .done st2 →
        (createPrompt env form now nowIso).error = none)
    ∧ (∀ (env : UpdateEnv) prompt form now nowIso, env.indexResp = .netErr →
        updatePrompt env prompt form now nowIso =
          ⟨[Action.getIndex], some updateErrMsg⟩)
    ∧ (∀ (env : UpdateEnv) prompt form now nowIso prompts sha i,
        env.indexResp = .ok prompts sha →
        prompts.findIdx? (fun p => p.id == prompt.id) = some i →
        form.title == prompt.title →
        env.putIndexResp = .netErr →
        updatePrompt env prompt form now nowIso =
          ⟨[Action.getIndex,
            Action.putIndex (updatedIndex prompts i form prompt.filename nowIso)
              (some sha)],
           some updateErrMsg⟩)
    ∧ (∀ (env : UpdateEnv) prompt form now nowIso prompts sha i st,
        env.indexResp = .ok prompts sha →
        prompts.findIdx? (fun p => p.id == prompt.id) = some i →
        form.title == prompt.title →
        env.putIndexResp = .done st →
        Action.getFile ("prompts/" ++ prompt.filename) ∈
          (updatePrompt env prompt form now nowIso).trace)
    ∧ (∀ (env : DeleteEnv) prompt, env.indexResp = .netErr →
        deletePrompt env prompt = ⟨[Action.getIndex], some deleteErrMsg⟩)
    ∧ (∀ (env : DeleteEnv) prompt prompts sha,
        env.indexResp = .ok prompts sha → env.putIndexResp = .netErr →
        deletePrompt env prompt =
          ⟨[Action.getIndex,
            Action.putIndex (prompts.filter (fun p => p.id != prompt.id)) (some sha)],
           some deleteErrMsg⟩)
    ∧ (∀ (env : DeleteEnv) prompt prompts sha st,
        env.indexResp = .ok prompts sha → env.putIndexResp = .done st →
        Action.getFile ("prompts/" ++ prompt.filename) ∈
          (deletePrompt env prompt).trace) := by
  refine ⟨?_, ?_, ?_, ?_, ?_, ?_, ?_, ?_, ?_, ?_, ?_⟩
  · intro env form now nowIso h
    simp [createPrompt, h]
  · intro env form now nowIso h
    cases hidx : env.indexResp <;>
      simp [createPrompt, createContinue, hidx, h]
  · intro env form now nowIso prompts sha h h2
    cases hpi : env.putIndexResp <;>
      simp [createPrompt, createContinue, h, hpi, h2]
  · intro env form now nowIso prompts sha st h h1
    cases hpf : env.putFileResp <;>
      simp [createPrompt, createContinue, h, h1, hpf]
  · intro env form now nowIso prompts sha st st2 h h1 h2
    simp [createPrompt, createContinue, h, h1, h2]
  · intro env prompt form now nowIso h
    simp [updatePrompt, h]
  · intro env prompt form now nowIso prompts sha i h hfind ht h1
    simp only [updatePrompt, h, hfind, ht, if_pos rfl]
    simp [updateFinish, h1]
  · intro env prompt form now nowIso prompts sha i st h hfind ht h1
    simp only [updatePrompt, h, hfind, ht, if_pos rfl]
    cases hsf : env.sameFileResp <;>
      cases hpf : env.putFileResp <;>
        simp [updateFinish, h1, hsf, hpf, List.mem_append]
  · intro env prompt h
    simp [deletePrompt, h]
  · intro env prompt prompts sha h h1
    simp [deletePrompt, h, h1]
  · intro env prompt prompts sha st h h1
    cases hf : env.fileResp <;>
      cases hd : env.deleteResp <;>
        simp [deletePrompt, h, h1, hf, hd, List.mem_append]

/-- Concrete instances of `c1_only_thrown_failures_abort`: a network-level
rejection of Create's Index GET and of Delete's Index PUT each aborts with
the generic message and no further request. -/
theorem c1_witness :
    createPrompt ⟨.netErr, .done 200, .done 200⟩ form0 0 "Z" =
      ⟨[Action.getIndex], some createErrMsg⟩
    ∧ deletePrompt ⟨.ok [recA] "s0", .netErr, .netErr, .netErr⟩ recA =
      ⟨[Action.getIndex, Action.putIndex [] (some "s0")], some deleteErrMsg⟩ := by
  constructor
  · exact c1_only_thrown_failures_abort.1 _ form0 0 "Z" rfl
  · have h := c1_only_thrown_failures_abort.2.2.2.2.2.2.2.2.2.1
      ⟨.ok [recA] "s0", .netErr, .netErr, .netErr⟩ recA [recA] "s0" rfl rfl
    exact h.trans (by decide)

/-! ### C3 -/

theorem natDigits_small {n : Nat} (h : n < 10) : natDigits n = [digitChar n] := by
  rw [natDigits, if_pos h]

theorem natDigits_large {n : Nat} (h : ¬n < 10) :
    natDigits n = natDigits (n / 10) ++ [digitChar (n % 10)] := by
  rw [natDigits, if_neg h]

theorem natDigits_length_mono {a b : Nat} (h : a ≤ b) :
    (natDigits a).length ≤ (natDigits b).length := by
  induction b using Nat.strong_induction_on generalizing a with
  | _ b ih =>
    by_cases hb : b < 10
    · have ha : a < 10 := Nat.lt_of_le_of_lt h hb
      rw [natDigits_small ha, natDigits_small hb]
      simp
    · by_cases ha : a < 10
      · rw [natDigits_small ha, natDigits_large hb]
        simp
      · have h10 : a / 10 ≤ b / 10 := Nat.div_le_div_right h
        have hblt : b / 10 < b := Nat.div_lt_self (by omega) (by omega)
        rw [natDigits_large ha, natDigits_large hb]
        simp only [List.length_append, List.length_cons, List.length_nil]
        have := ih (b / 10) hblt h10
        omega

/-- C3: Create derives the filename from the title by lower-casing,
collapsing every run of characters outside `[a-z0-9]` to a single dash and
trimming leading/trailing dashes (concrete evaluations shown), then appends
the generation-time timestamp, with the count of existing records whose
filename starts with the base-plus-dash appended exactly when positive; the
record Create appends to the Index carries this filename, and a second
Create whose title yields the same base ("My Prompt!!" then "my prompt")
always produces a filename distinct from the first's. -/
theorem c3_filename_derivation :
    (∀ (env : CreateEnv) form now nowIso prompts sha,
        env.indexResp = .ok prompts sha →
        (createPrompt env form now nowIso).trace.getD 1 Action.getIndex =
          Action.putIndex (prompts ++ [newPromptRecord form prompts now nowIso])
            (if sha = "" then none else some sha)
        ∧ (newPromptRecord form prompts now nowIso).filename
            = createFilename form.title prompts now)
    ∧ (∀ title prompts now,
        createFilename title prompts now =
          kebabCase title ++ "-" ++ natDecimal now
            ++ (if (createMatches (kebabCase title) prompts).length > 0
                then natDecimal (createMatches (kebabCase title) prompts).length
                else "")
            ++ ".md")
    ∧ kebabCase "My Prompt!!" = "my-prompt"
    ∧ kebabCase "my prompt" = "my-prompt"
    ∧ kebabCase " __My  2nd Prompt!? " = "my-2nd-prompt"
    ∧ (∀ (t1 t2 : Nat) (p : PromptRecord), t1 ≤ t2 →
        p.filename = createFilename "My Prompt!!" [] t1 →
        createFilename "my prompt" [p] t2 ≠ p.filename) := by
  refine ⟨?_, fun _ _ _ => rfl, by decide, by decide, by decide, ?_⟩
  · intro env form now nowIso prompts sha h
    refine ⟨?_, rfl⟩
    cases hpi : env.putIndexResp <;>
      cases hpf : env.putFileResp <;>
        simp [createPrompt, createContinue, h, hpi, hpf]
  · intro t1 t2 p hle hp heq
    have hk1 : kebabCase "My Prompt!!" = "my-prompt" := by decide
    have hk2 : kebabCase "my prompt" = "my-prompt" := by decide
    have hf1 : createFilename "My Prompt!!" [] t1 =
        ("my-prompt" ++ "-") ++ (natDecimal t1 ++ ".md") := by
      simp [createFilename, mkFilename, createMatches, countSuffix, hk1,
        String.append_assoc]
    rw [hf1] at hp
    replace hp : p.filename = "my-prompt-" ++ (natDecimal t1 ++ ".md") := by
      rw [hp, show ("my-prompt" ++ "-") = "my-prompt-" from by decide]
    have hsw : jsStartsWith "my-prompt-" p.filename = true := by
      show ("my-prompt-").data.isPrefixOf p.filename.data = true
      rw [hp, String.data_append]
      simp [List.isPrefixOf_iff_prefix]
    have hmatch : createMatches "my-prompt" [p] = [p] := by
      simp [createMatches, hsw]
    have hf2 : createFilename "my prompt" [p] t2 =
        "my-prompt" ++ "-" ++ natDecimal t2 ++ natDecimal 1 ++ ".md" := by
      simp only [createFilename, hk2, mkFilename, countSuffix]
      rw [hmatch]
      norm_num
    rw [hf2, hp] at heq
    have hlen := congrArg String.length heq
    simp only [String.length_append, natDecimal, String.length_mk] at hlen
    have h1 : (natDigits (1 : Nat)).length = 1 := by
      rw [natDigits_small (by omega)]
      rfl
    have hmono := natDigits_length_mono hle
    have e1 : ("my-prompt" : String).length = 9 := by decide
    have e2 : ("-" : String).length = 1 := by decide
    have e3 : ("my-prompt-" : String).length = 10 := by decide
    omega

/-- Concrete instance of `c3_filename_derivation`: two Creates in the same
millisecond with titles of equal base still get distinct filenames. -/
theorem c3_witness :
    createFilename "my prompt"
        [{ recA with filename := createFilename "My Prompt!!" [] 100 }] 100 ≠
      createFilename "My Prompt!!" [] 100 :=
  c3_filename_derivation.2.2.2.2.2 100 100
    { recA with filename := createFilename "My Prompt!!" [] 100 }
    (Nat.le_refl 100) rfl

/-! ### C9 -/

/-- C9: for any sign-consistent, transitive, total collator `lc` (the
platform's `localeCompare`) and any timestamp parse `getTime`, the view's
sort is a permutation of its input, stable (a pair already in comparator
order keeps its relative order), and sorted by the code's comparator — the
collator on titles, timestamp difference on last-updated, negated for
descending; in particular last-updated descending places a record of maximal
timestamp first. -/
theorem c9_sort_stable_and_ordered (lc : String → String → Int)
    (getTime : String → Int)
    (hTot : ∀ a b, lc a b ≤ 0 ∨ lc b a ≤ 0)
    (hTrans : ∀ a b c, lc a b ≤ 0 → lc b c ≤ 0 → lc a c ≤ 0)
    (hOpp : ∀ a b, lc a b ≤ 0 ↔ 0 ≤ lc b a) :
    (∀ field ord (l : List PromptRecord), List.Perm (sortPrompts lc getTime field ord l) l)
    ∧ (∀ field ord (l : List PromptRecord) (a b : PromptRecord),
        List.Sublist [a, b] l →
        promptCmp lc getTime field ord a b ≤ 0 →
        List.Sublist [a, b] (sortPrompts lc getTime field ord l))
    ∧ (∀ field ord (l : List PromptRecord),
        (sortPrompts lc getTime field ord l).Pairwise
          (fun a b => promptCmp lc getTime field ord a b ≤ 0))
    ∧ (∀ (l : List PromptRecord) (a : PromptRecord) rest,
        sortPrompts lc getTime SortField.updatedAt SortOrder.desc l = a :: rest →
        ∀ p ∈ l, getTime p.updatedAt ≤ getTime a.updatedAt) := by
  have htr : ∀ field ord (a b c : PromptRecord),
      promptCmp lc getTime field ord a b ≤ 0 →
      promptCmp lc getTime field ord b c ≤ 0 →
      promptCmp lc getTime field ord a c ≤ 0 := by
    intro field ord a b c h1 h2
    cases field with
    | title =>
      cases ord with
      | asc =>
        simp only [promptCmp, promptComparison] at h1 h2 ⊢
        exact hTrans _ _ _ h1 h2
      | desc =>
        simp only [promptCmp, promptComparison] at h1 h2 ⊢
        have hba : lc b.title a.title ≤ 0 := (hOpp _ _).mpr (by omega)
        have hcb : lc c.title b.title ≤ 0 := (hOpp _ _).mpr (by omega)
        have := (hOpp _ _).mp (hTrans _ _ _ hcb hba)
        omega
    | updatedAt =>
      cases ord with
      | asc => simp only [promptCmp, promptComparison] at h1 h2 ⊢; omega
      | desc => simp only [promptCmp, promptComparison] at h1 h2 ⊢; omega
  have htot : ∀ field ord (a b : PromptRecord),
      promptCmp lc getTime field ord a b ≤ 0 ∨
      promptCmp lc getTime field ord b a ≤ 0 := by
    intro field ord a b
    cases field with
    | title =>
      cases ord with
      | asc =>
        simp only [promptCmp, promptComparison]
        exact hTot _ _
      | desc =>
        simp only [promptCmp, promptComparison]
        rcases hTot a.title b.title with h | h
        · exact Or.inr (by have := (hOpp _ _).mp h; omega)
        · exact Or.inl (by have := (hOpp _ _).mp h; omega)
    | updatedAt =>
      cases ord with
      | asc => simp only [promptCmp, promptComparison]; omega
      | desc => simp only [promptCmp, promptComparison]; omega
  have btr : ∀ field ord (a b c : PromptRecord),
      (promptCmp lc getTime field ord a b ≤ 0 : Bool) →
      (promptCmp lc getTime field ord b c ≤ 0 : Bool) →
      (promptCmp lc getTime field ord a c ≤ 0 : Bool) := by
    intro field ord a b c h1 h2
    simp only [decide_eq_true_eq] at h1 h2 ⊢
    exact htr field ord a b c h1 h2
  have btot : ∀ field ord (a b : PromptRecord),
      ((promptCmp lc getTime field ord a b ≤ 0 : Bool) ||
       (promptCmp lc getTime field ord b a ≤ 0 : Bool)) = true := by
    intro field ord a b
    rcases htot field ord a b with h | h <;> simp [h]
  have hperm : ∀ field ord (l : List PromptRecord),
      List.Perm (sortPrompts lc getTime field ord l) l := by
    intro field ord l
    exact List.mergeSort_perm l _
  have hsorted : ∀ field ord (l : List PromptRecord),
      (sortPrompts lc getTime field ord l).Pairwise
        (fun a b => promptCmp lc getTime field ord a b ≤ 0) := by
    intro field ord l
    have h : (l.mergeSort (fun a b =>
        (promptCmp lc getTime field ord a b ≤ 0 : Bool))).Pairwise
          (fun a b => (promptCmp lc getTime field ord a b ≤ 0 : Bool) = true) :=
      List.sorted_mergeSort (btr field ord) (btot field ord) l
    exact h.imp (by simp only [decide_eq_true_eq]; exact id)
  refine ⟨hperm, ?_, hsorted, ?_⟩
  · intro field ord l a b hsub hab
    exact List.pair_sublist_mergeSort (btr field ord) (btot field ord)
      (by simpa using hab) hsub
  · intro l a rest hsort p hp
    have hPW := hsorted SortField.updatedAt SortOrder.desc l
    rw [hsort] at hPW
    have hpmem : p ∈ a :: rest := by
      have := (hperm SortField.updatedAt SortOrder.desc l).mem_iff (a := p)
      rw [hsort] at this
      exact this.mpr hp
    rcases List.mem_cons.mp hpmem with h | h
    · subst h
      exact Int.le_refl _
    · have := List.rel_of_pairwise_cons hPW h
      simp only [promptCmp, promptComparison] at this
      omega

/-- Concrete instance of `c9_sort_stable_and_ordered`: under the trivial
collator, sorting by last-updated descending permutes the input. -/
theorem c9_witness :
    List.Perm (sortPrompts (fun _ _ => 0) (fun s => (s.length : Int))
      SortField.updatedAt SortOrder.desc [recA, recB]) [recA, recB] :=
  (c9_sort_stable_and_ordered (fun _ _ => 0) (fun s => (s.length : Int))
    (fun _ _ => Or.inl (by simp))
    (fun _ _ _ _ _ => by simp)
    (fun _ _ => by simp)).1 SortField.updatedAt SortOrder.desc [recA, recB]

end PromptGitter
